import Mathlib

/-!
Verification of `trustfall_core/src/ir/indexed.rs`: the `TryFrom<IRQuery> for
IndexedQuery` conversion and its recursive helper `add_data_from_component`.

The IR data types (`IRQuery`, `IRQueryComponent`, `IRVertex`, `IREdge`,
`IRFold`, filter operations, `Vid`, `Eid`) are declared elsewhere in the
repository; they are modelled here from the specification's data model.
`Vid`/`Eid` are integer ids (nonzero machine integers in the source; the
checks only use `usize::from(...)` arithmetic, modelled as `Nat`).
`BTreeMap` is modelled as an association list with strictly ascending keys,
with `sortedInsert` mirroring `BTreeMap::insert` (returns the previous value
for the key, if any) and `alistGet` mirroring `BTreeMap::get`.
`Arc<IRQueryComponent>` pointer identity (`ptr::eq`) is modelled by giving
every component an identity tag `cid`, following the specification's design
note: "give every component a unique, explicit component identifier at
construction time ... and compare identifiers instead of memory identity".
-/

/-- Vertex id. Modelled from the spec: integer id space assigned by the IR builder. -/
abbrev Vid := Nat

/-- Edge id. Modelled from the spec: integer id space assigned by the IR builder. -/
abbrev Eid := Nat

/-- Models `async_graphql_parser::types::Type`: a base type that is either a
named leaf or a list of an inner type, together with a nullability flag.
`Ty.named s nb` is `Type { base: Named(s), nullable: nb }`;
`Ty.list t nb` is `Type { base: List(t), nullable: nb }`. -/
inductive Ty where
  | named : String → Bool → Ty
  | list : Ty → Bool → Ty

/-- Modelled from the spec: a named Variable filter argument, to be supplied by
the query caller (`vref.variable_name` in the source). -/
structure VariableRef where
  variable_name : String

/-- Modelled from the spec: a Tag filter argument referencing the value produced
by an earlier-expanded vertex of the same query. -/
structure TagRef where
  vertex_id : Vid

/-- Models the IR `Argument` enum: `Argument::Variable(..)` or `Argument::Tag(..)`. -/
inductive Argument where
  | Variable : VariableRef → Argument
  | Tag : TagRef → Argument

/-- Modelled from the spec: a filter operation on a vertex; the indexing code
only inspects `filter.right()`, the optional right-hand argument. -/
structure Operation where
  right : Option Argument

/-- Modelled from the spec: a vertex carries zero or more filters (the other
vertex fields are not used by the indexing code). -/
structure IRVertex where
  filters : List Operation

/-- Models `IREdge`: a directed traversal between two vertices (only the
`from_vid`/`to_vid` fields are used by the indexing code). -/
structure IREdge where
  from_vid : Vid
  to_vid : Vid

/-- Modelled from the spec: an output field declaration — the vertex id it reads
from and its declared leaf value type (`field.vertex_id`, `field.field_type`). -/
structure OutputField where
  vertex_id : Vid
  field_type : Ty

mutual
/-- Models `Arc<IRQueryComponent>`: `mk cid root vertices edges folds outputs`.
`cid` is the component identity tag standing for the `Arc` pointer (see the
specification's design note on identity comparison); `root` is the component's
root vertex id; the four ordered mappings are the component's own
vertex/edge/fold/output `BTreeMap`s, as key-value lists in ascending key order. -/
inductive IRQueryComponent where
  | mk : Nat → Vid → List (Vid × IRVertex) → List (Eid × IREdge) →
      List (Eid × IRFold) → List (String × OutputField) → IRQueryComponent

/-- Models `Arc<IRFold>`: `mk from_vid to_vid component` — a traversal from a
vertex of the parent component into a nested component. -/
inductive IRFold where
  | mk : Vid → Vid → IRQueryComponent → IRFold
end

/-- The component identity tag (stands for the `Arc` pointer; compared where the
source uses `ptr::eq`). -/
def IRQueryComponent.cid : IRQueryComponent → Nat
  | .mk i _ _ _ _ _ => i

/-- The component's declared root vertex id (`component.root`). -/
def IRQueryComponent.root : IRQueryComponent → Vid
  | .mk _ r _ _ _ _ => r

/-- The component's vertex mapping (`component.vertices`). -/
def IRQueryComponent.vertices : IRQueryComponent → List (Vid × IRVertex)
  | .mk _ _ vs _ _ _ => vs

/-- The component's regular-edge mapping (`component.edges`). -/
def IRQueryComponent.edges : IRQueryComponent → List (Eid × IREdge)
  | .mk _ _ _ es _ _ => es

/-- The component's fold mapping (`component.folds`). -/
def IRQueryComponent.folds : IRQueryComponent → List (Eid × IRFold)
  | .mk _ _ _ _ fs _ => fs

/-- The component's output mapping (`component.outputs`). -/
def IRQueryComponent.outputs : IRQueryComponent → List (String × OutputField)
  | .mk _ _ _ _ _ os => os

/-- The fold's `from_vid` field. -/
def IRFold.from_vid : IRFold → Vid
  | .mk f _ _ => f

/-- The fold's `to_vid` field. -/
def IRFold.to_vid : IRFold → Vid
  | .mk _ t _ => t

/-- The fold's nested component (`fold.component`). -/
def IRFold.component : IRFold → IRQueryComponent
  | .mk _ _ c => c

/-- Models `IRQuery`: a root component plus query-global metadata that is opaque
to the indexing code (and therefore omitted here). -/
structure IRQuery where
  root_component : IRQueryComponent

/-- Models the `Output` struct produced for the `outputs` index. -/
structure Output where
  name : String
  value_type : Ty
  vid : Vid

/-- Models the `EdgeKind` enum: a regular edge or a fold, sharing one id space. -/
inductive EdgeKind where
  | Regular : IREdge → EdgeKind
  | Fold : IRFold → EdgeKind

/-- Models `InvalidIRQueryError`: every failure is `GetBetterVariant(code)` with
an integer code (an acknowledged placeholder for the named taxonomy). -/
inductive InvalidIRQueryError where
  | GetBetterVariant : Int → InvalidIRQueryError

/-- Models `BTreeMap::get`: the value bound to `k`, if any. -/
def alistGet {K V : Type} [DecidableEq K] (k : K) : List (K × V) → Option V
  | [] => none
  | (k', v) :: rest => if k = k' then some v else alistGet k rest

/-- Models `BTreeMap::insert`: inserts `k ↦ v` keeping keys in ascending order
and returns the previously bound value for `k` (if any) together with the
updated map. -/
def sortedInsert {K V : Type} [LinearOrder K] (k : K) (v : V) :
    List (K × V) → Option V × List (K × V)
  | [] => (none, [(k, v)])
  | (k', v') :: rest =>
    if k < k' then (none, (k, v) :: (k', v') :: rest)
    else if k = k' then (some v', (k, v) :: rest)
    else
      let r := sortedInsert k v rest
      (r.1, (k', v') :: r.2)

/-- The four accumulating indices threaded by mutable reference through
`add_data_from_component` in the source. -/
structure Indexes where
  vids : List (Vid × IRQueryComponent)
  eids : List (Eid × EdgeKind)
  required_arguments : List (String × Unit)
  outputs : List (String × Output)

/-- The empty starting indices (`Default::default()` in `try_from`). -/
def emptyIndexes : Indexes := ⟨[], [], [], []⟩

/-- Models the source's wrapping loop `for _ in 0..fold_depth { wrapped_output_type =
Type { base: BaseType::List(Box::new(wrapped_output_type)), nullable: false } }`. -/
def wrapLoop : Nat → Ty → Ty
  | 0, t => t
  | n + 1, t => wrapLoop n (Ty.list t false)

/-- Models the per-vertex filter scan: for every filter whose right-hand
argument is a Variable, record its name in `required_arguments`
(`Some(Argument::Tag(..)) | None` record nothing). -/
def recordFilterVariables : List Operation → List (String × Unit) → List (String × Unit)
  | [], req => req
  | op :: rest, req =>
    match op.right with
    | some (.Variable vref) =>
        recordFilterVariables rest (sortedInsert vref.variable_name () req).2
    | some (.Tag _) => recordFilterVariables rest req
    | none => recordFilterVariables rest req

/-- Models the `for (vid, vertex) in &component.vertices` loop of
`add_data_from_component`: register each vertex in the global vertex index
(failing with code 0 on a duplicate) and record filter Variable names. -/
def processVertices (st : Indexes) (component : IRQueryComponent) :
    List (Vid × IRVertex) → Except InvalidIRQueryError Indexes
  | [] => .ok st
  | (vid, vertex) :: rest =>
    let r := sortedInsert vid component st.vids
    if r.1.isSome then .error (.GetBetterVariant 0)
    else
      processVertices
        { st with
          vids := r.2
          required_arguments := recordFilterVariables vertex.filters st.required_arguments }
        component rest

/-- Models the `for (output_name, field) in component.outputs.iter()` loop of
`add_data_from_component`: resolve the output's vertex (codes 1 and 2), wrap
its type once per fold level, and insert it (code 3 on a duplicate name). -/
def processOutputs (st : Indexes) (component : IRQueryComponent) (fold_depth : Nat) :
    List (String × OutputField) → Except InvalidIRQueryError Indexes
  | [] => .ok st
  | (output_name, field) :: rest =>
    match alistGet field.vertex_id st.vids with
    | none => .error (.GetBetterVariant 1)
    | some output_component =>
      if ¬(component.cid = output_component.cid) then .error (.GetBetterVariant 2)
      else
        let output_type :=
          if fold_depth = 0 then field.field_type else wrapLoop fold_depth field.field_type
        let output : Output := ⟨output_name, output_type, field.vertex_id⟩
        let r := sortedInsert output_name output st.outputs
        if r.1.isSome then .error (.GetBetterVariant 3)
        else processOutputs { st with outputs := r.2 } component fold_depth rest

/-- Models the `for (eid, edge) in component.edges.iter()` loop of
`add_data_from_component`: check the id/vertex correlation (code 4), resolve
both endpoints in this component (codes 5 to 8), and insert the edge into the
global edge index (code 9 on a duplicate id). -/
def processEdges (st : Indexes) (component : IRQueryComponent) :
    List (Eid × IREdge) → Except InvalidIRQueryError Indexes
  | [] => .ok st
  | (eid, edge) :: rest =>
    if eid + 1 ≠ edge.to_vid then .error (.GetBetterVariant 4)
    else
      match alistGet edge.from_vid st.vids with
      | none => .error (.GetBetterVariant 5)
      | some from_component =>
        if ¬(component.cid = from_component.cid) then .error (.GetBetterVariant 6)
        else
          match alistGet edge.to_vid st.vids with
          | none => .error (.GetBetterVariant 7)
          | some to_component =>
            if ¬(component.cid = to_component.cid) then .error (.GetBetterVariant 8)
            else
              let r := sortedInsert eid (EdgeKind.Regular edge) st.eids
              if r.1.isSome then .error (.GetBetterVariant 9)
              else processEdges { st with eids := r.2 } component rest

mutual
/-- Models `add_data_from_component`: root-vertex check (code -1), then the
vertex, output, edge and fold loops in source order, recursing into each
fold's nested component with `fold_depth + 1`. -/
def addDataFromComponent (st : Indexes) (component : IRQueryComponent) (fold_depth : Nat) :
    Except InvalidIRQueryError Indexes :=
  if (alistGet component.root component.vertices).isNone then
    .error (.GetBetterVariant (-1))
  else
    match processVertices st component component.vertices with
    | .error e => .error e
    | .ok st1 =>
      match processOutputs st1 component fold_depth component.outputs with
      | .error e => .error e
      | .ok st2 =>
        match processEdges st2 component component.edges with
        | .error e => .error e
        | .ok st3 =>
          match component with
          | .mk _ _ _ _ fs _ => processFolds st3 component (fold_depth + 1) fs

/-- Models the `for (eid, fold) in component.folds.iter()` loop of
`add_data_from_component`: id/vertex correlation (code 10), `from` endpoint in
this component (codes 11 and 12), `to` vertex equal to the nested component's
root (code 13), insertion into the global edge index (code 14 on a duplicate
id), then immediate recursion into the nested component. -/
def processFolds (st : Indexes) (component : IRQueryComponent) (new_fold_depth : Nat)
    (l : List (Eid × IRFold)) : Except InvalidIRQueryError Indexes :=
  match l with
  | [] => .ok st
  | (eid, f) :: rest =>
    if eid + 1 ≠ f.to_vid then .error (.GetBetterVariant 10)
    else
      match alistGet f.from_vid st.vids with
      | none => .error (.GetBetterVariant 11)
      | some from_component =>
        if ¬(component.cid = from_component.cid) then .error (.GetBetterVariant 12)
        else if f.to_vid ≠ f.component.root then .error (.GetBetterVariant 13)
        else
          let r := sortedInsert eid (EdgeKind.Fold f) st.eids
          if r.1.isSome then .error (.GetBetterVariant 14)
          else
            match f with
            | .mk _ _ fc =>
              match addDataFromComponent { st with eids := r.2 } fc new_fold_depth with
              | .error e => .error e
              | .ok st' => processFolds st' component new_fold_depth rest
end

/-- Models the `IndexedQuery` struct: the original query plus the four indices. -/
structure IndexedQuery where
  ir_query : IRQuery
  vids : List (Vid × IRQueryComponent)
  eids : List (Eid × EdgeKind)
  required_arguments : List (String × Unit)
  outputs : List (String × Output)

/-- Models `impl TryFrom<IRQuery> for IndexedQuery`: run
`add_data_from_component` on the root component with empty indices and fold
depth 0, propagating its error verbatim, else assemble the `IndexedQuery`. -/
def tryFrom (ir_query : IRQuery) : Except InvalidIRQueryError IndexedQuery :=
  match addDataFromComponent emptyIndexes ir_query.root_component 0 with
  | .error e => .error e
  | .ok st => .ok ⟨ir_query, st.vids, st.eids, st.required_arguments, st.outputs⟩

/-- Spec taxonomy name for error code -1: the component's root vertex id is
missing from its own vertex mapping. -/
def MissingRoot : InvalidIRQueryError := .GetBetterVariant (-1)

/-- Spec taxonomy name for error code 0: a vertex id registered twice. -/
def DuplicateVertexId : InvalidIRQueryError := .GetBetterVariant 0

/-- Spec taxonomy name for error code 1: an output's vertex id is absent from
the global vertex index. -/
def DanglingOutputVertex : InvalidIRQueryError := .GetBetterVariant 1

/-- Spec taxonomy name for error code 2: an output's vertex is owned by a
different component than the one declaring the output. -/
def OutputVertexWrongComponent : InvalidIRQueryError := .GetBetterVariant 2

/-- Spec taxonomy name for error code 3: an output name registered twice. -/
def DuplicateOutputName : InvalidIRQueryError := .GetBetterVariant 3

/-- Spec taxonomy name for error code 4: a regular edge whose `to` vertex id is
not the edge's id + 1. -/
def EdgeIdVertexIdMismatch : InvalidIRQueryError := .GetBetterVariant 4

/-- Spec taxonomy name for error code 9: an edge id registered twice. -/
def DuplicateEdgeId : InvalidIRQueryError := .GetBetterVariant 9

/-- Spec taxonomy name for error code 10: a fold whose `to` vertex id is not the
fold's id + 1. -/
def FoldIdVertexIdMismatch : InvalidIRQueryError := .GetBetterVariant 10

/-- Spec taxonomy name for error code 14: a fold id registered twice. -/
def DuplicateFoldId : InvalidIRQueryError := .GetBetterVariant 14

mutual
/-- All vertex ids declared by a component or any of its recursively nested
fold components. -/
def allVids (c : IRQueryComponent) : List Vid :=
  c.vertices.map Prod.fst ++ foldsVids c.folds
termination_by sizeOf c
decreasing_by
  cases c
  simp [IRQueryComponent.folds]
  omega

/-- Vertex ids declared inside a list of folds (recursively). -/
def foldsVids (l : List (Eid × IRFold)) : List Vid :=
  match l with
  | [] => []
  | (_, f) :: rest => allVids f.component ++ foldsVids rest
termination_by sizeOf l
decreasing_by
  · cases f
    simp [IRFold.component]
    omega
  · simp
end

mutual
/-- All edge and fold ids declared by a component or any of its recursively
nested fold components (regular edges and folds share one id space). -/
def allEids (c : IRQueryComponent) : List Eid :=
  c.edges.map Prod.fst ++ foldsEids c.folds
termination_by sizeOf c
decreasing_by
  cases c
  simp [IRQueryComponent.folds]
  omega

/-- Edge and fold ids declared inside a list of folds: each fold's own id
followed by the ids of its nested component (recursively). -/
def foldsEids (l : List (Eid × IRFold)) : List Eid :=
  match l with
  | [] => []
  | (eid, f) :: rest => eid :: (allEids f.component ++ foldsEids rest)
termination_by sizeOf l
decreasing_by
  · cases f
    simp [IRFold.component]
    omega
  · simp
end

mutual
/-- All output names declared by a component or any of its recursively nested
fold components. -/
def allOutputNames (c : IRQueryComponent) : List String :=
  c.outputs.map Prod.fst ++ foldsOutputNames c.folds
termination_by sizeOf c
decreasing_by
  cases c
  simp [IRQueryComponent.folds]
  omega

/-- Output names declared inside a list of folds (recursively). -/
def foldsOutputNames (l : List (Eid × IRFold)) : List String :=
  match l with
  | [] => []
  | (_, f) :: rest => allOutputNames f.component ++ foldsOutputNames rest
termination_by sizeOf l
decreasing_by
  · cases f
    simp [IRFold.component]
    omega
  · simp
end

/-- The variable names referenced by a list of filters through a right-hand
Variable argument (Tag arguments and absent arguments contribute nothing). -/
def filtersVariables (l : List Operation) : List String :=
  l.filterMap fun op =>
    match op.right with
    | some (.Variable vref) => some vref.variable_name
    | some (.Tag _) => none
    | none => none

/-- The variable names referenced by a vertex's filters. -/
def vertexVariables (v : IRVertex) : List String :=
  filtersVariables v.filters

mutual
/-- All variable names referenced through a right-hand Variable filter argument
by any vertex of a component or of its recursively nested fold components. -/
def allVariables (c : IRQueryComponent) : List String :=
  (c.vertices.map fun p => vertexVariables p.2).flatten ++ foldsVariables c.folds
termination_by sizeOf c
decreasing_by
  cases c
  simp [IRQueryComponent.folds]
  omega

/-- Variable names referenced inside a list of folds (recursively). -/
def foldsVariables (l : List (Eid × IRFold)) : List String :=
  match l with
  | [] => []
  | (_, f) :: rest => allVariables f.component ++ foldsVariables rest
termination_by sizeOf l
decreasing_by
  · cases f
    simp [IRFold.component]
    omega
  · simp
end

mutual
/-- The components reachable from `c` (itself included), each paired with its
fold-nesting depth, where `c` itself sits at depth `d`. -/
def reachFrom (d : Nat) (c : IRQueryComponent) : List (Nat × IRQueryComponent) :=
  (d, c) :: reachFolds (d + 1) c.folds
termination_by sizeOf c
decreasing_by
  cases c
  simp [IRQueryComponent.folds]
  omega

/-- The components reachable inside a list of folds, at depth `d`. -/
def reachFolds (d : Nat) (l : List (Eid × IRFold)) : List (Nat × IRQueryComponent) :=
  match l with
  | [] => []
  | (_, f) :: rest => reachFrom d f.component ++ reachFolds d rest
termination_by sizeOf l
decreasing_by
  · cases f
    simp [IRFold.component]
    omega
  · simp
end

/-- The keys of an association-list map are strictly ascending (the invariant of
the `BTreeMap` model; `emptyIndexes` satisfies it and `sortedInsert` preserves it). -/
def KeysSorted {K V : Type} [LinearOrder K] (m : List (K × V)) : Prop :=
  List.Pairwise (· < ·) (m.map Prod.fst)

/-- All four accumulated indices have strictly ascending keys. -/
def IndexesSorted (st : Indexes) : Prop :=
  KeysSorted st.vids ∧ KeysSorted st.eids ∧
    KeysSorted st.required_arguments ∧ KeysSorted st.outputs

/-- The claim's reading of fold-depth type wrapping: the leaf type wrapped in
exactly `n` non-nullable list layers, outermost first (`wrapList 0 t = t`). -/
def wrapList : Nat → Ty → Ty
  | 0, t => t
  | n + 1, t => Ty.list (wrapList n t) false

mutual
/-- The `(id, to-vertex)` pairs of every regular edge and fold of a component
and of its recursively nested fold components. -/
def allToPairs (c : IRQueryComponent) : List (Eid × Vid) :=
  (c.edges.map fun p => (p.1, p.2.to_vid)) ++ (c.folds.map fun p => (p.1, p.2.to_vid)) ++
    foldsToPairs c.folds
termination_by sizeOf c
decreasing_by
  cases c
  simp [IRQueryComponent.folds]
  omega

/-- The `(id, to-vertex)` pairs found inside a list of folds (recursively). -/
def foldsToPairs (l : List (Eid × IRFold)) : List (Eid × Vid) :=
  match l with
  | [] => []
  | (_, f) :: rest => allToPairs f.component ++ foldsToPairs rest
termination_by sizeOf l
decreasing_by
  · cases f
    simp [IRFold.component]
    omega
  · simp
end

/-- Modelled from the spec (P1, interval contiguity): the edge/fold ids of a
component together with all ids of its recursively nested fold components form
a contiguous integer interval with no gaps. -/
def ContiguousEids (c : IRQueryComponent) : Prop :=
  ∀ a ∈ allEids c, ∀ b ∈ allEids c, ∀ k : Eid, a ≤ k → k ≤ b → k ∈ allEids c

/-- Modelled from the spec (tag ordering; the source comment's phrasing: "the
edge with the tagged value vertex as its to side has a lower Eid than the edge
with the filtering vertex as its to side"): whenever a filter on a vertex uses
a Tag argument, every edge or fold expanding the tagged vertex has a strictly
lower id than every edge or fold expanding the filtering vertex. -/
def TagOrderingRespected (q : IRQuery) : Prop :=
  ∀ r ∈ reachFrom 0 q.root_component, ∀ p ∈ r.2.vertices, ∀ op ∈ p.2.filters,
    ∀ t : TagRef, op.right = some (.Tag t) →
    ∀ e1 ∈ allToPairs q.root_component, e1.2 = t.vertex_id →
    ∀ e2 ∈ allToPairs q.root_component, e2.2 = p.1 →
    e1.1 < e2.1

/-- Nested component of the witness query: identity tag 2, root vertex 2,
vertices 2 and 3, one regular edge with id 2 from vertex 2 to vertex 3, and an
output `tags` on vertex 2. -/
def wComp2 : IRQueryComponent :=
  .mk 2 2 [(2, ⟨[]⟩), (3, ⟨[]⟩)] [(2, ⟨2, 3⟩)] [] [("tags", ⟨2, Ty.named "String" true⟩)]

/-- Root component of the witness query: identity tag 1, root vertex 1 carrying
a filter with Variable argument `x`, and a fold with id 1 into `wComp2`. -/
def wRoot : IRQueryComponent :=
  .mk 1 1 [(1, ⟨[⟨some (.Variable ⟨"x"⟩)⟩]⟩)] [] [(1, .mk 1 2 wComp2)] []

/-- The witness query: a well-formed query exercising vertices, a fold, an edge,
both outputs and a Variable filter. -/
def wQuery : IRQuery := ⟨wRoot⟩

/-- The IndexedQuery that `tryFrom` produces for `wQuery`. -/
def wIndexed : IndexedQuery :=
  ⟨wQuery,
   [(1, wRoot), (2, wComp2), (3, wComp2)],
   [(1, .Fold (.mk 1 2 wComp2)), (2, .Regular ⟨2, 3⟩)],
   [("x", ())],
   [("tags", ⟨"tags", Ty.list (Ty.named "String" true) false, 2⟩)]⟩

/-- Counterexample query for the error attributed to edge id mismatches: it
contains a regular edge with id 1 whose to-vertex id is 3 (not 2), but its
declared root vertex id 5 is missing from the vertex mapping, so processing
fails with the missing-root error first. -/
def mismatchQuery : IRQuery :=
  ⟨.mk 1 5 [(1, ⟨[]⟩), (2, ⟨[]⟩)] [(1, ⟨1, 3⟩)] [] []⟩

/-- Counterexample query for the error attributed to duplicate ids: vertex id 1
is declared both by the root component and by the nested fold component, but
the nested component's own root vertex id 2 is missing from its vertex
mapping, so processing fails with the missing-root error first. -/
def dupVidQuery : IRQuery :=
  ⟨.mk 1 1 [(1, ⟨[]⟩)] [] [(1, .mk 1 2 (.mk 2 2 [(1, ⟨[]⟩), (3, ⟨[]⟩)] [] [] []))] []⟩

/-- Failing input for interval contiguity: edges with ids 1 and 4 (gap at 2 and
3); every check `add_data_from_component` performs passes. -/
def gapQuery : IRQuery :=
  ⟨.mk 1 1 [(1, ⟨[]⟩), (2, ⟨[]⟩), (5, ⟨[]⟩)] [(1, ⟨1, 2⟩), (4, ⟨1, 5⟩)] [] []⟩

/-- Failing input for tag ordering: vertex 2 (expanded by edge id 1) filters
with a Tag referencing vertex 3, which is only expanded later by edge id 2;
every check `add_data_from_component` performs passes. -/
def tagQuery : IRQuery :=
  ⟨.mk 1 1 [(1, ⟨[]⟩), (2, ⟨[⟨some (.Tag ⟨3⟩)⟩]⟩), (3, ⟨[]⟩)]
    [(1, ⟨1, 2⟩), (2, ⟨2, 3⟩)] [] []⟩

/-- Modelled from the spec: the serialization data model, a tree of atoms and
sequences into which values are encoded; the ordered index mappings are
encoded as their key-value sequences in ascending key order (the `BTreeMap`
iteration order), which makes the encoding deterministic. -/
inductive SValue where
  | str : String → SValue
  | num : Nat → SValue
  | bool : Bool → SValue
  | seq : List SValue → SValue

/-- Modelled from the spec: encoding of a value type. -/
def encodeTy : Ty → SValue
  | .named s nb => .seq [.str "named", .str s, .bool nb]
  | .list t nb => .seq [.str "list", encodeTy t, .bool nb]

/-- Modelled from the spec: decoding of a value type (inverse of `encodeTy`). -/
def decodeTy (v : SValue) : Option Ty :=
  match v with
  | .seq [.str "named", .str s, .bool nb] => some (.named s nb)
  | .seq [.str "list", w, .bool nb] =>
    match decodeTy w with
    | some t => some (.list t nb)
    | none => none
  | _ => none
termination_by sizeOf v
decreasing_by
  simp
  omega

/-- Modelled from the spec: encoding of one filter operation. -/
def encodeOp (op : Operation) : SValue :=
  match op.right with
  | none => .seq [.str "none"]
  | some (.Variable vref) => .seq [.str "var", .str vref.variable_name]
  | some (.Tag t) => .seq [.str "tag", .num t.vertex_id]

/-- Modelled from the spec: decoding of one filter operation. -/
def decodeOp : SValue → Option Operation
  | .seq [.str "none"] => some ⟨none⟩
  | .seq [.str "var", .str s] => some ⟨some (.Variable ⟨s⟩)⟩
  | .seq [.str "tag", .num n] => some ⟨some (.Tag ⟨n⟩)⟩
  | _ => none

/-- Modelled from the spec: decoding of a filter list. -/
def decodeOps : List SValue → Option (List Operation)
  | [] => some []
  | v :: rest =>
    match decodeOp v, decodeOps rest with
    | some op, some ops => some (op :: ops)
    | _, _ => none

/-- Modelled from the spec: encoding of one vertex-mapping entry. -/
def encodeVertexPair (p : Vid × IRVertex) : SValue :=
  .seq [.num p.1, .seq (p.2.filters.map encodeOp)]

/-- Modelled from the spec: decoding of one vertex-mapping entry. -/
def decodeVertexPair : SValue → Option (Vid × IRVertex)
  | .seq [.num n, .seq fs] =>
    match decodeOps fs with
    | some ops => some (n, ⟨ops⟩)
    | none => none
  | _ => none

/-- Modelled from the spec: decoding of the vertex mapping. -/
def decodeVertexPairs : List SValue → Option (List (Vid × IRVertex))
  | [] => some []
  | v :: rest =>
    match decodeVertexPair v, decodeVertexPairs rest with
    | some p, some ps => some (p :: ps)
    | _, _ => none

/-- Modelled from the spec: encoding of one edge-mapping entry. -/
def encodeEdgePair (p : Eid × IREdge) : SValue :=
  .seq [.num p.1, .num p.2.from_vid, .num p.2.to_vid]

/-- Modelled from the spec: decoding of one edge-mapping entry. -/
def decodeEdgePair : SValue → Option (Eid × IREdge)
  | .seq [.num n, .num a, .num b] => some (n, ⟨a, b⟩)
  | _ => none

/-- Modelled from the spec: decoding of the edge mapping. -/
def decodeEdgePairs : List SValue → Option (List (Eid × IREdge))
  | [] => some []
  | v :: rest =>
    match decodeEdgePair v, decodeEdgePairs rest with
    | some p, some ps => some (p :: ps)
    | _, _ => none

/-- Modelled from the spec: encoding of one output-mapping entry. -/
def encodeOutputPair (p : String × OutputField) : SValue :=
  .seq [.str p.1, .num p.2.vertex_id, encodeTy p.2.field_type]

/-- Modelled from the spec: decoding of one output-mapping entry. -/
def decodeOutputPair : SValue → Option (String × OutputField)
  | .seq [.str s, .num n, tv] =>
    match decodeTy tv with
    | some t => some (s, ⟨n, t⟩)
    | none => none
  | _ => none

/-- Modelled from the spec: decoding of the output mapping. -/
def decodeOutputPairs : List SValue → Option (List (String × OutputField))
  | [] => some []
  | v :: rest =>
    match decodeOutputPair v, decodeOutputPairs rest with
    | some p, some ps => some (p :: ps)
    | _, _ => none

mutual
/-- Modelled from the spec: encoding of a component, field by field, with every
mapping emitted in its stored (ascending-key) order. -/
def encodeComponent (c : IRQueryComponent) : SValue :=
  .seq [.num c.cid, .num c.root,
    .seq (c.vertices.map encodeVertexPair),
    .seq (c.edges.map encodeEdgePair),
    .seq (encodeFolds c.folds),
    .seq (c.outputs.map encodeOutputPair)]
termination_by sizeOf c
decreasing_by
  cases c
  simp [IRQueryComponent.folds]
  omega

/-- Modelled from the spec: encoding of the fold mapping. -/
def encodeFolds (l : List (Eid × IRFold)) : List SValue :=
  match l with
  | [] => []
  | (eid, f) :: rest =>
    SValue.seq [.num eid, .num f.from_vid, .num f.to_vid, encodeComponent f.component] ::
      encodeFolds rest
termination_by sizeOf l
decreasing_by
  · cases f
    simp [IRFold.component]
    omega
  · simp
end

mutual
/-- Modelled from the spec: decoding of a component (inverse of
`encodeComponent`). -/
def decodeComponent (v : SValue) : Option IRQueryComponent :=
  match v with
  | .seq [.num cid, .num root, .seq vs, .seq es, .seq fs, .seq os] =>
    match decodeVertexPairs vs, decodeEdgePairs es, decodeFolds fs, decodeOutputPairs os with
    | some vs', some es', some fs', some os' => some (.mk cid root vs' es' fs' os')
    | _, _, _, _ => none
  | _ => none
termination_by sizeOf v
decreasing_by
  simp
  omega

/-- Modelled from the spec: decoding of the fold mapping. -/
def decodeFolds (l : List SValue) : Option (List (Eid × IRFold)) :=
  match l with
  | [] => some []
  | SValue.seq [.num eid, .num fv, .num tv, cv] :: rest =>
    match decodeComponent cv, decodeFolds rest with
    | some c, some rest' => some ((eid, .mk fv tv c) :: rest')
    | _, _ => none
  | _ :: _ => none
termination_by sizeOf l
decreasing_by
  · simp
    omega
  · simp
end

/-- Modelled from the spec: encoding of one edge-index entry (a regular edge or
a fold). -/
def encodeEdgeKind : EdgeKind → SValue
  | .Regular e => .seq [.str "regular", .num e.from_vid, .num e.to_vid]
  | .Fold f => .seq [.str "fold", .num f.from_vid, .num f.to_vid, encodeComponent f.component]

/-- Modelled from the spec: decoding of one edge-index entry. -/
def decodeEdgeKind : SValue → Option EdgeKind
  | .seq [.str "regular", .num a, .num b] => some (.Regular ⟨a, b⟩)
  | .seq [.str "fold", .num a, .num b, cv] =>
    match decodeComponent cv with
    | some c => some (.Fold (.mk a b c))
    | none => none
  | _ => none

/-- Modelled from the spec: decoding of the vertex index. -/
def decodeVidEntries : List SValue → Option (List (Vid × IRQueryComponent))
  | [] => some []
  | SValue.seq [.num n, cv] :: rest =>
    match decodeComponent cv, decodeVidEntries rest with
    | some c, some ps => some ((n, c) :: ps)
    | _, _ => none
  | _ :: _ => none

/-- Modelled from the spec: decoding of the edge index. -/
def decodeEidEntries : List SValue → Option (List (Eid × EdgeKind))
  | [] => some []
  | SValue.seq [.num n, kv] :: rest =>
    match decodeEdgeKind kv, decodeEidEntries rest with
    | some k, some ps => some ((n, k) :: ps)
    | _, _ => none
  | _ :: _ => none

/-- Modelled from the spec: decoding of the required-arguments index. -/
def decodeReqEntries : List SValue → Option (List (String × Unit))
  | [] => some []
  | SValue.str s :: rest =>
    match decodeReqEntries rest with
    | some ps => some ((s, ()) :: ps)
    | none => none
  | _ :: _ => none

/-- Modelled from the spec: decoding of the outputs index. -/
def decodeOutEntries : List SValue → Option (List (String × Output))
  | [] => some []
  | SValue.seq [.str k, .str nm, tv, .num vd] :: rest =>
    match decodeTy tv, decodeOutEntries rest with
    | some t, some ps => some ((k, ⟨nm, t, vd⟩) :: ps)
    | _, _ => none
  | _ :: _ => none

/-- Modelled from the spec: the serialization of an `IndexedQuery` — the
original query followed by the four index mappings, each emitted in its stored
ascending-key order, so that equal values serialize identically. -/
def encodeIndexedQuery (iq : IndexedQuery) : SValue :=
  .seq [encodeComponent iq.ir_query.root_component,
    .seq (iq.vids.map fun p => .seq [.num p.1, encodeComponent p.2]),
    .seq (iq.eids.map fun p => .seq [.num p.1, encodeEdgeKind p.2]),
    .seq (iq.required_arguments.map fun p => .str p.1),
    .seq (iq.outputs.map fun p =>
      .seq [.str p.1, .str p.2.name, encodeTy p.2.value_type, .num p.2.vid])]

/-- Modelled from the spec: deserialization of an `IndexedQuery` (inverse of
`encodeIndexedQuery`). -/
def decodeIndexedQuery : SValue → Option IndexedQuery
  | .seq [cv, .seq vs, .seq es, .seq rs, .seq os] =>
    match decodeComponent cv, decodeVidEntries vs, decodeEidEntries es,
        decodeReqEntries rs, decodeOutEntries os with
    | some c, some vids, some eids, some req, some outs =>
      some ⟨⟨c⟩, vids, eids, req, outs⟩
    | _, _, _, _, _ => none
  | _ => none

/-- Per-component facts recorded in the accumulated indices `st` once the
component `C`, processed at fold depth `depth`, has been fully handled. -/
structure ComponentFacts (st : Indexes) (depth : Nat) (C : IRQueryComponent) : Prop where
  vertex_owned : ∀ p ∈ C.vertices, alistGet p.1 st.vids = some C
  edge_facts : ∀ p ∈ C.edges, p.1 + 1 = p.2.to_vid ∧
      alistGet p.1 st.eids = some (EdgeKind.Regular p.2)
  fold_facts : ∀ p ∈ C.folds, p.1 + 1 = p.2.to_vid ∧ p.2.to_vid = p.2.component.root ∧
      alistGet p.1 st.eids = some (EdgeKind.Fold p.2)
  output_facts : ∀ p ∈ C.outputs,
      alistGet p.1 st.outputs = some ⟨p.1, wrapLoop depth p.2.field_type, p.2.vertex_id⟩ ∧
      ∃ oc, alistGet p.2.vertex_id st.vids = some oc ∧ C.cid = oc.cid

/-- Everything a successful run of the validator over one component (or one fold
list) guarantees: it turns indices `st` into indices `st'`, adding exactly the
vertex ids `vs`, the edge/fold ids `es`, the output names `ns` and the variable
names `vars`, all fresh and duplicate-free, while preserving existing entries,
keeping all keys sorted, and establishing the per-component checks for every
reachable component in `reach`. -/
structure RunSpec (st st' : Indexes) (vs : List Vid) (es : List Eid) (ns : List String)
    (vars : List String) (reach : List (Nat × IRQueryComponent)) : Prop where
  sorted : IndexesSorted st'
  vids_pres : ∀ k v, alistGet k st.vids = some v → alistGet k st'.vids = some v
  eids_pres : ∀ k v, alistGet k st.eids = some v → alistGet k st'.eids = some v
  outputs_pres : ∀ k v, alistGet k st.outputs = some v → alistGet k st'.outputs = some v
  vids_dom : ∀ k, (alistGet k st'.vids).isSome ↔ ((alistGet k st.vids).isSome ∨ k ∈ vs)
  eids_dom : ∀ k, (alistGet k st'.eids).isSome ↔ ((alistGet k st.eids).isSome ∨ k ∈ es)
  outputs_dom : ∀ k, (alistGet k st'.outputs).isSome ↔
      ((alistGet k st.outputs).isSome ∨ k ∈ ns)
  req_dom : ∀ k, (alistGet k st'.required_arguments).isSome ↔
      ((alistGet k st.required_arguments).isSome ∨ k ∈ vars)
  vids_nodup : vs.Nodup
  vids_fresh : ∀ k ∈ vs, alistGet k st.vids = none
  eids_nodup : es.Nodup
  eids_fresh : ∀ k ∈ es, alistGet k st.eids = none
  outputs_nodup : ns.Nodup
  outputs_fresh : ∀ k ∈ ns, alistGet k st.outputs = none
  reach_facts : ∀ r ∈ reach, ComponentFacts st' r.1 r.2

theorem addDataFromComponent_eq (st : Indexes) (c : IRQueryComponent) (d : Nat) :
    addDataFromComponent st c d =
      (if (alistGet c.root c.vertices).isNone then .error (.GetBetterVariant (-1))
      else
        match processVertices st c c.vertices with
        | .error e => .error e
        | .ok st1 =>
          match processOutputs st1 c d c.outputs with
          | .error e => .error e
          | .ok st2 =>
            match processEdges st2 c c.edges with
            | .error e => .error e
            | .ok st3 => processFolds st3 c (d + 1) c.folds) := by
  cases c
  rfl

theorem processFolds_eq_nil (st : Indexes) (c : IRQueryComponent) (nd : Nat) :
    processFolds st c nd [] = .ok st := rfl

theorem processFolds_eq_cons (st : Indexes) (c : IRQueryComponent) (nd : Nat)
    (eid : Eid) (f : IRFold) (rest : List (Eid × IRFold)) :
    processFolds st c nd ((eid, f) :: rest) =
      (if eid + 1 ≠ f.to_vid then .error (.GetBetterVariant 10)
      else
        match alistGet f.from_vid st.vids with
        | none => .error (.GetBetterVariant 11)
        | some from_component =>
          if ¬(c.cid = from_component.cid) then .error (.GetBetterVariant 12)
          else if f.to_vid ≠ f.component.root then .error (.GetBetterVariant 13)
          else
            let r := sortedInsert eid (EdgeKind.Fold f) st.eids
            if r.1.isSome then .error (.GetBetterVariant 14)
            else
              match addDataFromComponent { st with eids := r.2 } f.component nd with
              | .error e => .error e
              | .ok st' => processFolds st' c nd rest) := by
  cases f
  rfl

theorem sizeOf_folds_lt (c : IRQueryComponent) : sizeOf c.folds < sizeOf c := by
  cases c
  simp [IRQueryComponent.folds]
  omega

theorem sizeOf_component_lt (f : IRFold) : sizeOf f.component < sizeOf f := by
  cases f
  simp [IRFold.component]

theorem emptyIndexes_sorted : IndexesSorted emptyIndexes := by
  refine ⟨?_, ?_, ?_, ?_⟩ <;> simp [emptyIndexes, KeysSorted]

theorem alistGet_none_of_lt {K V : Type} [LinearOrder K] [DecidableEq K] (k : K) (m : List (K × V))
    (h : ∀ q ∈ m, k < q.1) : alistGet k m = none := by
  induction m with
  | nil => simp [alistGet]
  | cons q rest ih =>
    have hq := h q (by simp)
    simp only [alistGet, if_neg (ne_of_lt hq)]
    exact ih fun q2 hq2 => h q2 (by simp [hq2])

theorem alistGet_sortedInsert {K V : Type} [LinearOrder K] [DecidableEq K] (k k' : K) (v : V)
    (m : List (K × V)) :
    alistGet k (sortedInsert k' v m).2 = if k = k' then some v else alistGet k m := by
  induction m with
  | nil => simp [sortedInsert, alistGet]
  | cons p rest ih =>
    obtain ⟨k2, v2⟩ := p
    by_cases h1 : k' < k2
    · by_cases h2 : k = k' <;> simp [sortedInsert, if_pos h1, alistGet, h2]
    · by_cases h2 : k' = k2
      · simp only [sortedInsert, if_neg h1, if_pos h2]
        by_cases h3 : k = k'
        · simp [alistGet, h3]
        · simp [alistGet, h3, h2 ▸ h3]
      · simp only [sortedInsert, if_neg h1, if_neg h2]
        by_cases h3 : k = k2
        · have hne : k2 ≠ k' := fun h => h2 h.symm
          simp [alistGet, h3, hne]
        · simp [alistGet, h3, ih]

theorem keysSorted_cons {K V : Type} [LinearOrder K] {p : K × V} {rest : List (K × V)}
    (hs : KeysSorted (p :: rest)) :
    KeysSorted rest ∧ ∀ q ∈ rest, p.1 < q.1 := by
  unfold KeysSorted at *
  simp only [List.map_cons, List.pairwise_cons] at hs
  exact ⟨hs.2, fun q hq => hs.1 q.1 (List.mem_map_of_mem Prod.fst hq)⟩

theorem sortedInsert_fst {K V : Type} [LinearOrder K] [DecidableEq K] (k : K) (v : V)
    (m : List (K × V)) (hs : KeysSorted m) :
    (sortedInsert k v m).1 = alistGet k m := by
  induction m with
  | nil => simp [sortedInsert, alistGet]
  | cons p rest ih =>
    obtain ⟨k2, v2⟩ := p
    obtain ⟨hs', hlt⟩ := keysSorted_cons hs
    by_cases h1 : k < k2
    · have hnone : alistGet k rest = none :=
        alistGet_none_of_lt k rest fun q hq => lt_trans h1 (hlt q hq)
      simp [sortedInsert, if_pos h1, alistGet, ne_of_lt h1, hnone]
    · by_cases h2 : k = k2
      · simp [sortedInsert, if_neg h1, if_pos h2, alistGet, h2]
      · simp only [sortedInsert, if_neg h1, if_neg h2]
        simp only [alistGet, if_neg h2]
        exact ih hs'

theorem sortedInsert_mem_keys {K V : Type} [LinearOrder K] (k : K) (v : V)
    (m : List (K × V)) :
    ∀ q ∈ (sortedInsert k v m).2, q.1 = k ∨ q.1 ∈ m.map Prod.fst := by
  induction m with
  | nil =>
    intro q hq
    simp only [sortedInsert, List.mem_singleton] at hq
    subst hq
    exact Or.inl rfl
  | cons p rest ih =>
    obtain ⟨k2, v2⟩ := p
    intro q hq
    by_cases h1 : k < k2
    · rw [sortedInsert, if_pos h1] at hq
      simp only [List.mem_cons] at hq
      rcases hq with rfl | rfl | hq
      · exact Or.inl rfl
      · exact Or.inr (by simp)
      · exact Or.inr (by simp only [List.map_cons, List.mem_cons]; right; exact List.mem_map_of_mem Prod.fst hq)
    · by_cases h2 : k = k2
      · rw [sortedInsert, if_neg h1, if_pos h2] at hq
        simp only [List.mem_cons] at hq
        rcases hq with rfl | hq
        · exact Or.inl rfl
        · exact Or.inr (by simp only [List.map_cons, List.mem_cons]; right; exact List.mem_map_of_mem Prod.fst hq)
      · rw [sortedInsert, if_neg h1, if_neg h2] at hq
        simp only [List.mem_cons] at hq
        rcases hq with rfl | hq
        · exact Or.inr (by simp)
        · rcases ih q hq with h | h
          · exact Or.inl h
          · exact Or.inr (by simp only [List.map_cons, List.mem_cons]; right; exact h)

theorem sortedInsert_sorted {K V : Type} [LinearOrder K] (k : K) (v : V)
    (m : List (K × V)) (hs : KeysSorted m) : KeysSorted (sortedInsert k v m).2 := by
  induction m with
  | nil => simp [sortedInsert, KeysSorted]
  | cons p rest ih =>
    obtain ⟨k2, v2⟩ := p
    obtain ⟨hs', hlt⟩ := keysSorted_cons hs
    by_cases h1 : k < k2
    · rw [sortedInsert, if_pos h1]
      unfold KeysSorted at *
      simp only [List.map_cons, List.pairwise_cons] at *
      refine ⟨?_, hs⟩
      intro x hx
      simp only [List.mem_cons] at hx
      rcases hx with rfl | hx
      · exact h1
      · simp only [List.mem_map] at hx
        obtain ⟨q, hq, rfl⟩ := hx
        exact lt_trans h1 (hlt q hq)
    · by_cases h2 : k = k2
      · subst h2
        rw [sortedInsert, if_neg h1, if_pos rfl]
        unfold KeysSorted at *
        simp only [List.map_cons, List.pairwise_cons] at *
        exact ⟨fun x hx => hs.1 x hx, hs'⟩
      · have h3 : k2 < k := lt_of_le_of_ne (not_lt.mp h1) (Ne.symm h2)
        rw [sortedInsert, if_neg h1, if_neg h2]
        unfold KeysSorted at *
        simp only [List.map_cons, List.pairwise_cons]
        refine ⟨?_, ih hs'⟩
        intro x hx
        simp only [List.mem_map] at hx
        obtain ⟨q, hq, rfl⟩ := hx
        rcases sortedInsert_mem_keys k v rest q hq with h | h
        · rw [h]; exact h3
        · simp only [List.mem_map] at h
          obtain ⟨q2, hq2, hq2e⟩ := h
          rw [← hq2e]
          exact hlt q2 hq2

theorem recordFilterVariables_spec (fil : List Operation) :
    ∀ req : List (String × Unit), KeysSorted req →
    KeysSorted (recordFilterVariables fil req) ∧
    ∀ name, (alistGet name (recordFilterVariables fil req)).isSome ↔
      ((alistGet name req).isSome ∨ name ∈ filtersVariables fil) := by
  induction fil with
  | nil =>
    intro req hs
    refine ⟨hs, fun name => ?_⟩
    simp [recordFilterVariables, filtersVariables]
  | cons op rest ih =>
    intro req hs
    match hop : op.right with
    | some (.Variable vref) =>
      have hs' : KeysSorted (sortedInsert vref.variable_name () req).2 :=
        sortedInsert_sorted _ _ _ hs
      obtain ⟨ihs, ihg⟩ := ih (sortedInsert vref.variable_name () req).2 hs'
      refine ⟨by simpa [recordFilterVariables, hop] using ihs, fun name => ?_⟩
      rw [recordFilterVariables]
      rw [hop]
      rw [ihg name]
      rw [alistGet_sortedInsert]
      by_cases hn : name = vref.variable_name <;>
        simp [filtersVariables, List.filterMap_cons, hop, hn]
    | some (.Tag t) =>
      obtain ⟨ihs, ihg⟩ := ih req hs
      refine ⟨by simpa [recordFilterVariables, hop] using ihs, fun name => ?_⟩
      rw [recordFilterVariables]
      rw [hop]
      rw [ihg name]
      simp [filtersVariables, List.filterMap_cons, hop]
    | none =>
      obtain ⟨ihs, ihg⟩ := ih req hs
      refine ⟨by simpa [recordFilterVariables, hop] using ihs, fun name => ?_⟩
      rw [recordFilterVariables]
      rw [hop]
      rw [ihg name]
      simp [filtersVariables, List.filterMap_cons, hop]

theorem processVertices_spec (component : IRQueryComponent) (l : List (Vid × IRVertex)) :
    ∀ (st st' : Indexes),
    KeysSorted st.vids → KeysSorted st.required_arguments →
    processVertices st component l = .ok st' →
    st'.eids = st.eids ∧ st'.outputs = st.outputs ∧
    KeysSorted st'.vids ∧ KeysSorted st'.required_arguments ∧
    (l.map Prod.fst).Nodup ∧
    (∀ k ∈ l.map Prod.fst, alistGet k st.vids = none) ∧
    (∀ k, alistGet k st'.vids =
        if k ∈ l.map Prod.fst then some component else alistGet k st.vids) ∧
    (∀ name, (alistGet name st'.required_arguments).isSome ↔
        ((alistGet name st.required_arguments).isSome ∨
          name ∈ (l.map fun p => vertexVariables p.2).flatten)) := by
  induction l with
  | nil =>
    intro st st' hsv hsr h
    rw [processVertices] at h
    cases h
    exact ⟨rfl, rfl, hsv, hsr, by simp, by simp, by simp, by simp⟩
  | cons p rest ih =>
    intro st st' hsv hsr h
    obtain ⟨vid, vertex⟩ := p
    rw [processVertices] at h
    split at h
    · cases h
    · rename_i hfresh
      set stmid : Indexes :=
        { st with
          vids := (sortedInsert vid component st.vids).2
          required_arguments := recordFilterVariables vertex.filters st.required_arguments }
        with hstmid
      have hfr : alistGet vid st.vids = none := by
        rw [← sortedInsert_fst vid component st.vids hsv]
        cases hh : (sortedInsert vid component st.vids).1 with
        | none => rfl
        | some v => rw [hh] at hfresh; simp at hfresh
      obtain ⟨hrs, hrg⟩ := recordFilterVariables_spec vertex.filters st.required_arguments hsr
      have hsv' : KeysSorted stmid.vids := sortedInsert_sorted _ _ _ hsv
      obtain ⟨he, ho, hsv2, hsr2, hnd, hfr2, hget, hreq⟩ :=
        ih stmid st' hsv' hrs h
      refine ⟨he, ho, hsv2, hsr2, ?_, ?_, ?_, ?_⟩
      · -- Nodup (vid :: rest keys)
        simp only [List.map_cons, List.nodup_cons]
        refine ⟨?_, hnd⟩
        intro hmem
        have := hfr2 vid hmem
        rw [hstmid] at this
        simp only [alistGet_sortedInsert] at this
        simp at this
      · -- freshness of all keys wrt st
        intro k hk
        simp only [List.map_cons, List.mem_cons] at hk
        rcases hk with rfl | hk
        · exact hfr
        · have := hfr2 k hk
          simp only [hstmid, alistGet_sortedInsert] at this
          by_cases hkv : k = vid
          · simp [hkv] at this
          · simpa [hkv] using this
      · -- get characterization
        intro k
        rw [hget k]
        simp only [hstmid, alistGet_sortedInsert]
        by_cases hk1 : k ∈ rest.map Prod.fst
        · simp [hk1, List.map_cons, List.mem_cons]
        · by_cases hk2 : k = vid <;>
            simp [hk1, hk2, List.map_cons, List.mem_cons]
      · -- required arguments characterization
        intro name
        rw [hreq name]
        rw [hrg name]
        simp only [List.map_cons, List.flatten_cons, List.mem_append, vertexVariables]
        tauto

theorem wrapLoop_if (d : Nat) (t : Ty) :
    (if d = 0 then t else wrapLoop d t) = wrapLoop d t := by
  cases d <;> simp [wrapLoop]

theorem processOutputs_spec (component : IRQueryComponent) (fold_depth : Nat)
    (l : List (String × OutputField)) :
    ∀ (st st' : Indexes), KeysSorted st.outputs →
    processOutputs st component fold_depth l = .ok st' →
    st'.vids = st.vids ∧ st'.eids = st.eids ∧
    st'.required_arguments = st.required_arguments ∧
    KeysSorted st'.outputs ∧
    (l.map Prod.fst).Nodup ∧
    (∀ k ∈ l.map Prod.fst, alistGet k st.outputs = none) ∧
    (∀ k, k ∉ l.map Prod.fst → alistGet k st'.outputs = alistGet k st.outputs) ∧
    (∀ k, (alistGet k st'.outputs).isSome ↔
        ((alistGet k st.outputs).isSome ∨ k ∈ l.map Prod.fst)) ∧
    (∀ p ∈ l,
      alistGet p.1 st'.outputs =
        some ⟨p.1, wrapLoop fold_depth p.2.field_type, p.2.vertex_id⟩ ∧
      ∃ oc, alistGet p.2.vertex_id st.vids = some oc ∧ component.cid = oc.cid) := by
  induction l with
  | nil =>
    intro st st' hso h
    rw [processOutputs] at h
    cases h
    exact ⟨rfl, rfl, rfl, hso, by simp, by simp, fun k _ => rfl, by simp, by simp⟩
  | cons p rest ih =>
    intro st st' hso h
    obtain ⟨output_name, field⟩ := p
    rw [processOutputs] at h
    split at h
    · cases h
    · rename_i oc hoc
      split at h
      · cases h
      · rename_i hcid
        rw [not_not] at hcid
        simp only [wrapLoop_if] at h
        split at h
        · cases h
        · rename_i hfresh
          set out : Output :=
            ⟨output_name, wrapLoop fold_depth field.field_type, field.vertex_id⟩ with hout
          set stmid : Indexes :=
            { st with outputs := (sortedInsert output_name out st.outputs).2 } with hstmid
          have hfr : alistGet output_name st.outputs = none := by
            rw [← sortedInsert_fst output_name out st.outputs hso]
            cases hh : (sortedInsert output_name out st.outputs).1 with
            | none => rfl
            | some v => rw [hh] at hfresh; simp at hfresh
          have hso' : KeysSorted stmid.outputs := sortedInsert_sorted _ _ _ hso
          obtain ⟨hv, he, hr, hso2, hnd, hfr2, hout2, hdom, helem⟩ := ih stmid st' hso' h
          have hmidget : ∀ k, alistGet k stmid.outputs =
              if k = output_name then some out else alistGet k st.outputs := by
            intro k
            simp only [hstmid]
            exact alistGet_sortedInsert k output_name out st.outputs
          have hnotrest : output_name ∉ rest.map Prod.fst := by
            intro hmem
            have := hfr2 output_name hmem
            rw [hmidget output_name] at this
            simp at this
          refine ⟨hv, he, hr, hso2, ?_, ?_, ?_, ?_, ?_⟩
          · simp only [List.map_cons, List.nodup_cons]
            exact ⟨hnotrest, hnd⟩
          · intro k hk
            simp only [List.map_cons, List.mem_cons] at hk
            rcases hk with rfl | hk
            · exact hfr
            · have := hfr2 k hk
              rw [hmidget k] at this
              by_cases hkv : k = output_name
              · simp [hkv] at this
              · simpa [hkv] using this
          · intro k hk
            simp only [List.map_cons, List.mem_cons] at hk
            push_neg at hk
            rw [hout2 k hk.2, hmidget k, if_neg hk.1]
          · intro k
            rw [hdom k, hmidget k]
            by_cases hkv : k = output_name <;>
              simp [hkv, List.map_cons, List.mem_cons]
          · intro p hp
            simp only [List.mem_cons] at hp
            rcases hp with rfl | hp
            · constructor
              · rw [hout2 _ hnotrest, hmidget output_name, if_pos rfl]
              · exact ⟨oc, hoc, hcid⟩
            · have := helem p hp
              simpa only [hstmid] using this

theorem processEdges_spec (component : IRQueryComponent) (l : List (Eid × IREdge)) :
    ∀ (st st' : Indexes), KeysSorted st.eids →
    processEdges st component l = .ok st' →
    st'.vids = st.vids ∧ st'.outputs = st.outputs ∧
    st'.required_arguments = st.required_arguments ∧
    KeysSorted st'.eids ∧
    (l.map Prod.fst).Nodup ∧
    (∀ k ∈ l.map Prod.fst, alistGet k st.eids = none) ∧
    (∀ k, k ∉ l.map Prod.fst → alistGet k st'.eids = alistGet k st.eids) ∧
    (∀ k, (alistGet k st'.eids).isSome ↔
        ((alistGet k st.eids).isSome ∨ k ∈ l.map Prod.fst)) ∧
    (∀ p ∈ l, p.1 + 1 = p.2.to_vid ∧
      alistGet p.1 st'.eids = some (EdgeKind.Regular p.2) ∧
      (∃ oc, alistGet p.2.from_vid st.vids = some oc ∧ component.cid = oc.cid) ∧
      (∃ oc, alistGet p.2.to_vid st.vids = some oc ∧ component.cid = oc.cid)) := by
  induction l with
  | nil =>
    intro st st' hse h
    rw [processEdges] at h
    cases h
    exact ⟨rfl, rfl, rfl, hse, by simp, by simp, fun k _ => rfl, by simp, by simp⟩
  | cons p rest ih =>
    intro st st' hse h
    obtain ⟨eid, edge⟩ := p
    rw [processEdges] at h
    split at h
    · cases h
    · rename_i hto
      rw [not_not] at hto
      split at h
      · cases h
      · rename_i fc hfc
        split at h
        · cases h
        · rename_i hfcid
          rw [not_not] at hfcid
          split at h
          · cases h
          · rename_i tc htc
            split at h
            · cases h
            · rename_i htcid
              rw [not_not] at htcid
              dsimp only at h
              split at h
              · cases h
              · rename_i hfresh
                set stmid : Indexes :=
                  { st with eids := (sortedInsert eid (EdgeKind.Regular edge) st.eids).2 }
                  with hstmid
                have hfr : alistGet eid st.eids = none := by
                  rw [← sortedInsert_fst eid (EdgeKind.Regular edge) st.eids hse]
                  cases hh : (sortedInsert eid (EdgeKind.Regular edge) st.eids).1 with
                  | none => rfl
                  | some v => rw [hh] at hfresh; simp at hfresh
                have hse' : KeysSorted stmid.eids := sortedInsert_sorted _ _ _ hse
                obtain ⟨hv, ho, hr, hse2, hnd, hfr2, hout2, hdom, helem⟩ := ih stmid st' hse' h
                have hmidget : ∀ k, alistGet k stmid.eids =
                    if k = eid then some (EdgeKind.Regular edge) else alistGet k st.eids := by
                  intro k
                  simp only [hstmid]
                  exact alistGet_sortedInsert k eid (EdgeKind.Regular edge) st.eids
                have hnotrest : eid ∉ rest.map Prod.fst := by
                  intro hmem
                  have := hfr2 eid hmem
                  rw [hmidget eid] at this
                  simp at this
                refine ⟨hv, ho, hr, hse2, ?_, ?_, ?_, ?_, ?_⟩
                · simp only [List.map_cons, List.nodup_cons]
                  exact ⟨hnotrest, hnd⟩
                · intro k hk
                  simp only [List.map_cons, List.mem_cons] at hk
                  rcases hk with rfl | hk
                  · exact hfr
                  · have := hfr2 k hk
                    rw [hmidget k] at this
                    by_cases hkv : k = eid
                    · simp [hkv] at this
                    · simpa [hkv] using this
                · intro k hk
                  simp only [List.map_cons, List.mem_cons] at hk
                  push_neg at hk
                  rw [hout2 k hk.2, hmidget k, if_neg hk.1]
                · intro k
                  rw [hdom k, hmidget k]
                  by_cases hkv : k = eid <;>
                    simp [hkv, List.map_cons, List.mem_cons]
                · intro p hp
                  simp only [List.mem_cons] at hp
                  rcases hp with rfl | hp
                  · refine ⟨hto, ?_, ⟨fc, hfc, hfcid⟩, ⟨tc, htc, htcid⟩⟩
                    rw [hout2 _ hnotrest, hmidget eid, if_pos rfl]
                  · have := helem p hp
                    simpa only [hstmid] using this

theorem ComponentFacts.mono {st st' : Indexes} {depth : Nat} {C : IRQueryComponent}
    (cf : ComponentFacts st depth C)
    (hv : ∀ k v, alistGet k st.vids = some v → alistGet k st'.vids = some v)
    (he : ∀ k v, alistGet k st.eids = some v → alistGet k st'.eids = some v)
    (ho : ∀ k v, alistGet k st.outputs = some v → alistGet k st'.outputs = some v) :
    ComponentFacts st' depth C where
  vertex_owned := fun p hp => hv _ _ (cf.vertex_owned p hp)
  edge_facts := fun p hp => ⟨(cf.edge_facts p hp).1, he _ _ (cf.edge_facts p hp).2⟩
  fold_facts := fun p hp =>
    ⟨(cf.fold_facts p hp).1, (cf.fold_facts p hp).2.1, he _ _ (cf.fold_facts p hp).2.2⟩
  output_facts := fun p hp =>
    ⟨ho _ _ (cf.output_facts p hp).1, by
      obtain ⟨oc, h1, h2⟩ := (cf.output_facts p hp).2
      exact ⟨oc, hv _ _ h1, h2⟩⟩

/-- Joint strong-induction proof of the run specification for
`addDataFromComponent` and `processFolds`, bounded by `N` on the size of the
component (respectively fold list) being processed. -/
theorem validatorSpec (N : Nat) :
    (∀ (st : Indexes) (c : IRQueryComponent) (d : Nat) (st' : Indexes), sizeOf c < N →
      IndexesSorted st → addDataFromComponent st c d = .ok st' →
      RunSpec st st' (allVids c) (allEids c) (allOutputNames c) (allVariables c)
        (reachFrom d c)) ∧
    (∀ (st : Indexes) (c : IRQueryComponent) (nd : Nat) (l : List (Eid × IRFold))
      (st' : Indexes), sizeOf l < N →
      IndexesSorted st → processFolds st c nd l = .ok st' →
      RunSpec st st' (foldsVids l) (foldsEids l) (foldsOutputNames l) (foldsVariables l)
        (reachFolds nd l) ∧
      ∀ p ∈ l, p.1 + 1 = p.2.to_vid ∧ p.2.to_vid = p.2.component.root ∧
        alistGet p.1 st'.eids = some (EdgeKind.Fold p.2)) := by
  induction N with
  | zero =>
    exact ⟨fun st c d st' hlt => absurd hlt (by omega),
      fun st c nd l st' hlt => absurd hlt (by omega)⟩
  | succ N ihN =>
    obtain ⟨ihA, ihF⟩ := ihN
    constructor
    · intro st c d st' hlt hs h
      obtain ⟨hsv, hse, hsr, hso⟩ := hs
      rw [addDataFromComponent_eq] at h
      split at h
      · cases h
      · rename_i hroot
        split at h
        · cases h
        rename_i st1 h1
        split at h
        · cases h
        rename_i st2 h2
        split at h
        · cases h
        rename_i st3 h3
        obtain ⟨h1e, h1o, h1sv, h1sr, h1nd, h1fr, h1get, h1req⟩ :=
          processVertices_spec c c.vertices st st1 hsv hsr h1
        obtain ⟨h2v, h2e, h2r, h2so, h2nd, h2fr, h2un, h2dom, h2elem⟩ :=
          processOutputs_spec c d c.outputs st1 st2 (h1o ▸ hso) h2
        obtain ⟨h3v, h3o, h3r, h3se, h3nd, h3fr, h3un, h3dom, h3elem⟩ :=
          processEdges_spec c c.edges st2 st3 (h2e ▸ h1e ▸ hse) h3
        have hv31 : st3.vids = st1.vids := h3v.trans h2v
        have ho32 : st3.outputs = st2.outputs := h3o
        have hr31 : st3.required_arguments = st1.required_arguments := h3r.trans h2r
        have he21 : st2.eids = st.eids := h2e.trans h1e
        have hs3 : IndexesSorted st3 := by
          refine ⟨?_, h3se, ?_, ?_⟩
          · rw [hv31]; exact h1sv
          · rw [hr31]; exact h1sr
          · rw [ho32]; exact h2so
        have hltF : sizeOf c.folds < N := by
          have hzz := sizeOf_folds_lt c
          omega
        obtain ⟨RS, hHead⟩ := ihF st3 c (d + 1) c.folds st' hltF hs3 h
        have pres_v : ∀ k v, alistGet k st.vids = some v → alistGet k st3.vids = some v := by
          intro k v hk
          rw [hv31, h1get k]
          split
          · rename_i hmem
            rw [h1fr k hmem] at hk
            cases hk
          · exact hk
        have pres_e : ∀ k v, alistGet k st.eids = some v → alistGet k st3.eids = some v := by
          intro k v hk
          by_cases hmem : k ∈ c.edges.map Prod.fst
          · rw [← he21] at hk
            rw [h3fr k hmem] at hk
            cases hk
          · rw [h3un k hmem, he21]
            exact hk
        have pres_o : ∀ k v, alistGet k st.outputs = some v → alistGet k st3.outputs = some v := by
          intro k v hk
          by_cases hmem : k ∈ c.outputs.map Prod.fst
          · rw [← h1o] at hk
            rw [h2fr k hmem] at hk
            cases hk
          · rw [ho32, h2un k hmem, h1o]
            exact hk
        refine ⟨RS.sorted, ?_, ?_, ?_, ?_, ?_, ?_, ?_, ?_, ?_, ?_, ?_, ?_, ?_, ?_⟩
        · exact fun k v hk => RS.vids_pres k v (pres_v k v hk)
        · exact fun k v hk => RS.eids_pres k v (pres_e k v hk)
        · exact fun k v hk => RS.outputs_pres k v (pres_o k v hk)
        · -- vids_dom
          intro k
          rw [allVids]
          rw [RS.vids_dom k, hv31, h1get k]
          simp only [List.mem_append]
          by_cases hmem : k ∈ c.vertices.map Prod.fst
          · simp only [hmem, if_pos]
            simp [hmem]
          · simp only [hmem, if_neg, if_false]
            tauto
        · -- eids_dom
          intro k
          rw [allEids]
          rw [RS.eids_dom k, h3dom k, he21]
          simp only [List.mem_append]
          tauto
        · -- outputs_dom
          intro k
          rw [allOutputNames]
          rw [RS.outputs_dom k, ho32, h2dom k, h1o]
          simp only [List.mem_append]
          tauto
        · -- req_dom
          intro k
          rw [allVariables]
          rw [RS.req_dom k, hr31, h1req k]
          simp only [List.mem_append]
          tauto
        · -- vids_nodup
          rw [allVids, List.nodup_append]
          refine ⟨h1nd, RS.vids_nodup, ?_⟩
          intro k hk1 hk2
          have hn := RS.vids_fresh k hk2
          rw [hv31, h1get k, if_pos hk1] at hn
          cases hn
        · -- vids_fresh
          intro k hk
          rw [allVids, List.mem_append] at hk
          rcases hk with hk | hk
          · exact h1fr k hk
          · have hn := RS.vids_fresh k hk
            rw [hv31, h1get k] at hn
            split at hn
            · cases hn
            · exact hn
        · -- eids_nodup
          rw [allEids, List.nodup_append]
          refine ⟨h3nd, RS.eids_nodup, ?_⟩
          intro k hk1 hk2
          have hn := RS.eids_fresh k hk2
          obtain ⟨p, hp, hpk⟩ := List.mem_map.mp hk1
          have hsome := (h3elem p hp).2.1
          rw [hpk, hn] at hsome
          cases hsome
        · -- eids_fresh
          intro k hk
          rw [allEids, List.mem_append] at hk
          rcases hk with hk | hk
          · rw [← he21]
            exact h3fr k hk
          · have hn := RS.eids_fresh k hk
            cases hcase : alistGet k st.eids with
            | none => rfl
            | some v =>
              have hpp := pres_e k v hcase
              rw [hn] at hpp
              cases hpp
        · -- outputs_nodup
          rw [allOutputNames, List.nodup_append]
          refine ⟨h2nd, RS.outputs_nodup, ?_⟩
          intro k hk1 hk2
          have hn := RS.outputs_fresh k hk2
          obtain ⟨p, hp, hpk⟩ := List.mem_map.mp hk1
          have hsome := (h2elem p hp).1
          rw [hpk, ← ho32, hn] at hsome
          cases hsome
        · -- outputs_fresh
          intro k hk
          rw [allOutputNames, List.mem_append] at hk
          rcases hk with hk | hk
          · rw [← h1o]
            exact h2fr k hk
          · have hn := RS.outputs_fresh k hk
            cases hcase : alistGet k st.outputs with
            | none => rfl
            | some v =>
              have hpp := pres_o k v hcase
              rw [hn] at hpp
              cases hpp
        · -- reach_facts
          intro r hr
          rw [reachFrom] at hr
          rcases List.mem_cons.mp hr with rfl | hr
          · refine ⟨?_, ?_, ?_, ?_⟩
            · intro p hp
              apply RS.vids_pres
              rw [hv31, h1get p.1, if_pos (List.mem_map_of_mem Prod.fst hp)]
            · intro p hp
              obtain ⟨hto, hget, _, _⟩ := h3elem p hp
              exact ⟨hto, RS.eids_pres _ _ hget⟩
            · exact fun p hp => hHead p hp
            · intro p hp
              obtain ⟨hget, oc, hoc, hocid⟩ := h2elem p hp
              refine ⟨RS.outputs_pres _ _ (by rw [ho32]; exact hget), oc, ?_, hocid⟩
              apply RS.vids_pres
              rw [hv31]
              exact hoc
          · exact RS.reach_facts r hr
    · intro st c nd l st' hlt hs h
      obtain ⟨hsv, hse, hsr, hso⟩ := hs
      cases l with
      | nil =>
        rw [processFolds_eq_nil] at h
        cases h
        refine ⟨⟨⟨hsv, hse, hsr, hso⟩, fun k v hk => hk, fun k v hk => hk, fun k v hk => hk,
          ?_, ?_, ?_, ?_, ?_, ?_, ?_, ?_, ?_, ?_, ?_⟩, ?_⟩
        · intro k; simp [foldsVids]
        · intro k; simp [foldsEids]
        · intro k; simp [foldsOutputNames]
        · intro k; simp [foldsVariables]
        · simp [foldsVids]
        · simp [foldsVids]
        · simp [foldsEids]
        · simp [foldsEids]
        · simp [foldsOutputNames]
        · simp [foldsOutputNames]
        · simp [reachFolds]
        · simp
      | cons p rest =>
        obtain ⟨eid, f⟩ := p
        rw [processFolds_eq_cons] at h
        split at h
        · cases h
        rename_i hto
        rw [not_not] at hto
        split at h
        · cases h
        rename_i fc hfc
        split at h
        · cases h
        rename_i hfcid
        rw [not_not] at hfcid
        split at h
        · cases h
        rename_i hroot2
        rw [not_not] at hroot2
        dsimp only at h
        split at h
        · cases h
        rename_i hfresh
        split at h
        · cases h
        rename_i st2 hrec
        set stIns : Indexes := { st with eids := (sortedInsert eid (EdgeKind.Fold f) st.eids).2 }
          with hstIns
        have hInsV : stIns.vids = st.vids := rfl
        have hInsR : stIns.required_arguments = st.required_arguments := rfl
        have hInsO : stIns.outputs = st.outputs := rfl
        have hfr : alistGet eid st.eids = none := by
          rw [← sortedInsert_fst eid (EdgeKind.Fold f) st.eids hse]
          cases hh : (sortedInsert eid (EdgeKind.Fold f) st.eids).1 with
          | none => rfl
          | some v => rw [hh] at hfresh; simp at hfresh
        have hmidget : ∀ k, alistGet k stIns.eids =
            if k = eid then some (EdgeKind.Fold f) else alistGet k st.eids := by
          intro k
          simp only [hstIns]
          exact alistGet_sortedInsert k eid (EdgeKind.Fold f) st.eids
        have hsIns : IndexesSorted stIns :=
          ⟨hsv, sortedInsert_sorted _ _ _ hse, hsr, hso⟩
        have hszf := sizeOf_component_lt f
        have hlt1 : sizeOf f.component < N := by
          simp at hlt
          omega
        have hlt2 : sizeOf rest < N := by
          simp at hlt
          omega
        have RS1 := ihA stIns f.component nd st2 hlt1 hsIns hrec
        obtain ⟨RS2, hHead2⟩ := ihF st2 c nd rest st' hlt2 RS1.sorted h
        have presIns_e : ∀ k v, alistGet k st.eids = some v → alistGet k stIns.eids = some v := by
          intro k v hk
          rw [hmidget k]
          split
          · rename_i hkeq
            rw [hkeq, hfr] at hk
            cases hk
          · exact hk
        refine ⟨⟨RS2.sorted, ?_, ?_, ?_, ?_, ?_, ?_, ?_, ?_, ?_, ?_, ?_, ?_, ?_, ?_⟩, ?_⟩
        · -- vids_pres
          exact fun k v hk => RS2.vids_pres k v (RS1.vids_pres k v (hInsV ▸ hk))
        · -- eids_pres
          exact fun k v hk => RS2.eids_pres k v (RS1.eids_pres k v (presIns_e k v hk))
        · -- outputs_pres
          exact fun k v hk => RS2.outputs_pres k v (RS1.outputs_pres k v (hInsO ▸ hk))
        · -- vids_dom
          intro k
          simp only [foldsVids, List.mem_append]
          rw [RS2.vids_dom k, RS1.vids_dom k, hInsV]
          tauto
        · -- eids_dom
          intro k
          simp only [foldsEids, List.mem_cons, List.mem_append]
          rw [RS2.eids_dom k, RS1.eids_dom k]
          have hIns : (alistGet k stIns.eids).isSome = true ↔
              (k = eid ∨ (alistGet k st.eids).isSome = true) := by
            rw [hmidget k]
            split
            · rename_i hkeq; simp [hkeq]
            · rename_i hkeq; simp [hkeq]
          rw [hIns]
          tauto
        · -- outputs_dom
          intro k
          simp only [foldsOutputNames, List.mem_append]
          rw [RS2.outputs_dom k, RS1.outputs_dom k, hInsO]
          tauto
        · -- req_dom
          intro k
          simp only [foldsVariables, List.mem_append]
          rw [RS2.req_dom k, RS1.req_dom k, hInsR]
          tauto
        · -- vids_nodup
          simp only [foldsVids, List.nodup_append]
          refine ⟨RS1.vids_nodup, RS2.vids_nodup, ?_⟩
          intro k hk1 hk2
          have hn := RS2.vids_fresh k hk2
          have hsome : (alistGet k st2.vids).isSome = true := by
            rw [RS1.vids_dom k]
            exact Or.inr hk1
          rw [hn] at hsome
          cases hsome
        · -- vids_fresh
          intro k hk
          simp only [foldsVids, List.mem_append] at hk
          rcases hk with hk | hk
          · rw [← hInsV]
            exact RS1.vids_fresh k hk
          · have hn := RS2.vids_fresh k hk
            cases hcase : alistGet k st.vids with
            | none => rfl
            | some v =>
              have hpp := RS1.vids_pres k v (hInsV ▸ hcase)
              rw [hn] at hpp
              cases hpp
        · -- eids_nodup
          simp only [foldsEids]
          rw [List.nodup_cons, List.nodup_append]
          refine ⟨?_, RS1.eids_nodup, RS2.eids_nodup, ?_⟩
          · intro hmem
            rw [List.mem_append] at hmem
            rcases hmem with hk | hk
            · have hn := RS1.eids_fresh eid hk
              rw [hmidget eid, if_pos rfl] at hn
              cases hn
            · have hn := RS2.eids_fresh eid hk
              have hsome := RS1.eids_pres eid _ (by rw [hmidget eid, if_pos rfl])
              rw [hn] at hsome
              cases hsome
          · intro k hk1 hk2
            have hn := RS2.eids_fresh k hk2
            have hsome : (alistGet k st2.eids).isSome = true := by
              rw [RS1.eids_dom k]
              exact Or.inr hk1
            rw [hn] at hsome
            cases hsome
        · -- eids_fresh
          intro k hk
          simp only [foldsEids, List.mem_cons, List.mem_append] at hk
          rcases hk with rfl | hk | hk
          · exact hfr
          · have hn := RS1.eids_fresh k hk
            rw [hmidget k] at hn
            split at hn
            · cases hn
            · exact hn
          · have hn := RS2.eids_fresh k hk
            cases hcase : alistGet k st.eids with
            | none => rfl
            | some v =>
              have hpp := RS1.eids_pres k v (presIns_e k v hcase)
              rw [hn] at hpp
              cases hpp
        · -- outputs_nodup
          simp only [foldsOutputNames, List.nodup_append]
          refine ⟨RS1.outputs_nodup, RS2.outputs_nodup, ?_⟩
          intro k hk1 hk2
          have hn := RS2.outputs_fresh k hk2
          have hsome : (alistGet k st2.outputs).isSome = true := by
            rw [RS1.outputs_dom k]
            exact Or.inr hk1
          rw [hn] at hsome
          cases hsome
        · -- outputs_fresh
          intro k hk
          simp only [foldsOutputNames, List.mem_append] at hk
          rcases hk with hk | hk
          · rw [← hInsO]
            exact RS1.outputs_fresh k hk
          · have hn := RS2.outputs_fresh k hk
            cases hcase : alistGet k st.outputs with
            | none => rfl
            | some v =>
              have hpp := RS1.outputs_pres k v (hInsO ▸ hcase)
              rw [hn] at hpp
              cases hpp
        · -- reach_facts
          intro r hr
          simp only [reachFolds, List.mem_append] at hr
          rcases hr with hr | hr
          · exact (RS1.reach_facts r hr).mono RS2.vids_pres RS2.eids_pres RS2.outputs_pres
          · exact RS2.reach_facts r hr
        · -- head facts
          intro p hp
          rcases List.mem_cons.mp hp with rfl | hp
          · refine ⟨hto, hroot2, ?_⟩
            have h0 : alistGet eid stIns.eids = some (EdgeKind.Fold f) := by
              rw [hmidget eid, if_pos rfl]
            exact RS2.eids_pres _ _ (RS1.eids_pres _ _ h0)
          · exact hHead2 p hp

theorem addData_spec (st : Indexes) (c : IRQueryComponent) (d : Nat) (st' : Indexes)
    (hs : IndexesSorted st) (h : addDataFromComponent st c d = .ok st') :
    RunSpec st st' (allVids c) (allEids c) (allOutputNames c) (allVariables c)
      (reachFrom d c) :=
  (validatorSpec (sizeOf c + 1)).1 st c d st' (by omega) hs h

theorem processFolds_spec (st : Indexes) (c : IRQueryComponent) (nd : Nat)
    (l : List (Eid × IRFold)) (st' : Indexes)
    (hs : IndexesSorted st) (h : processFolds st c nd l = .ok st') :
    RunSpec st st' (foldsVids l) (foldsEids l) (foldsOutputNames l) (foldsVariables l)
      (reachFolds nd l) ∧
    ∀ p ∈ l, p.1 + 1 = p.2.to_vid ∧ p.2.to_vid = p.2.component.root ∧
      alistGet p.1 st'.eids = some (EdgeKind.Fold p.2) :=
  (validatorSpec (sizeOf l + 1)).2 st c nd l st' (by omega) hs h

theorem wrapList_list (n : Nat) (t : Ty) :
    wrapList n (Ty.list t false) = Ty.list (wrapList n t) false := by
  induction n with
  | zero => rfl
  | succ n ih => simp [wrapList, ih]

theorem wrapLoop_eq_wrapList (n : Nat) (t : Ty) : wrapLoop n t = wrapList n t := by
  induction n generalizing t with
  | zero => rfl
  | succ n ih =>
    rw [wrapLoop, ih, wrapList_list]
    rfl

theorem decodeTy_encodeTy (t : Ty) : decodeTy (encodeTy t) = some t := by
  induction t with
  | named s nb => simp [encodeTy, decodeTy]
  | list t nb ih => simp [encodeTy, decodeTy, ih]

theorem decodeOp_encodeOp (op : Operation) : decodeOp (encodeOp op) = some op := by
  obtain ⟨r⟩ := op
  match r with
  | none => simp [encodeOp, decodeOp]
  | some (.Variable ⟨s⟩) => simp [encodeOp, decodeOp]
  | some (.Tag ⟨n⟩) => simp [encodeOp, decodeOp]

theorem decodeOps_encode (l : List Operation) : decodeOps (l.map encodeOp) = some l := by
  induction l with
  | nil => simp [decodeOps]
  | cons op rest ih => simp [decodeOps, decodeOp_encodeOp, ih]

theorem decodeVertexPair_encode (p : Vid × IRVertex) :
    decodeVertexPair (encodeVertexPair p) = some p := by
  obtain ⟨n, fs⟩ := p
  simp [encodeVertexPair, decodeVertexPair, decodeOps_encode]

theorem decodeVertexPairs_encode (l : List (Vid × IRVertex)) :
    decodeVertexPairs (l.map encodeVertexPair) = some l := by
  induction l with
  | nil => simp [decodeVertexPairs]
  | cons p rest ih => simp [decodeVertexPairs, decodeVertexPair_encode, ih]

theorem decodeEdgePair_encode (p : Eid × IREdge) :
    decodeEdgePair (encodeEdgePair p) = some p := by
  obtain ⟨n, e⟩ := p
  simp [encodeEdgePair, decodeEdgePair]

theorem decodeEdgePairs_encode (l : List (Eid × IREdge)) :
    decodeEdgePairs (l.map encodeEdgePair) = some l := by
  induction l with
  | nil => simp [decodeEdgePairs]
  | cons p rest ih => simp [decodeEdgePairs, decodeEdgePair_encode, ih]

theorem decodeOutputPair_encode (p : String × OutputField) :
    decodeOutputPair (encodeOutputPair p) = some p := by
  obtain ⟨s, f⟩ := p
  simp [encodeOutputPair, decodeOutputPair, decodeTy_encodeTy]

theorem decodeOutputPairs_encode (l : List (String × OutputField)) :
    decodeOutputPairs (l.map encodeOutputPair) = some l := by
  induction l with
  | nil => simp [decodeOutputPairs]
  | cons p rest ih => simp [decodeOutputPairs, decodeOutputPair_encode, ih]

theorem encDecComponent (N : Nat) :
    (∀ c : IRQueryComponent, sizeOf c < N →
      decodeComponent (encodeComponent c) = some c) ∧
    (∀ l : List (Eid × IRFold), sizeOf l < N →
      decodeFolds (encodeFolds l) = some l) := by
  induction N with
  | zero =>
    exact ⟨fun c h => absurd h (by omega), fun l h => absurd h (by omega)⟩
  | succ N ihN =>
    obtain ⟨ihC, ihF⟩ := ihN
    constructor
    · intro c hlt
      cases c with
      | mk cid root vs es fs os =>
        have hfs : sizeOf fs < N := by
          simp at hlt
          omega
        simp [encodeComponent, decodeComponent, IRQueryComponent.cid, IRQueryComponent.root,
          IRQueryComponent.vertices, IRQueryComponent.edges, IRQueryComponent.folds,
          IRQueryComponent.outputs, decodeVertexPairs_encode, decodeEdgePairs_encode,
          decodeOutputPairs_encode, ihF fs hfs]
    · intro l hlt
      cases l with
      | nil => simp [encodeFolds, decodeFolds]
      | cons p rest =>
        obtain ⟨eid, f⟩ := p
        cases f with
        | mk fv tv fc =>
          have h1 : sizeOf fc < N := by
            simp at hlt
            omega
          have h2 : sizeOf rest < N := by
            simp at hlt
            omega
          simp [encodeFolds, decodeFolds, IRFold.from_vid, IRFold.to_vid, IRFold.component,
            ihC fc h1, ihF rest h2]

theorem decodeComponent_encode (c : IRQueryComponent) :
    decodeComponent (encodeComponent c) = some c :=
  (encDecComponent (sizeOf c + 1)).1 c (by omega)

theorem decodeEdgeKind_encode (k : EdgeKind) : decodeEdgeKind (encodeEdgeKind k) = some k := by
  cases k with
  | Regular e =>
    obtain ⟨a, b⟩ := e
    simp [encodeEdgeKind, decodeEdgeKind]
  | Fold f =>
    cases f with
    | mk a b c =>
      simp [encodeEdgeKind, decodeEdgeKind, IRFold.from_vid, IRFold.to_vid, IRFold.component,
        decodeComponent_encode]

theorem decodeVidEntries_encode (l : List (Vid × IRQueryComponent)) :
    decodeVidEntries (l.map fun p => SValue.seq [.num p.1, encodeComponent p.2]) = some l := by
  induction l with
  | nil => simp [decodeVidEntries]
  | cons p rest ih => simp [decodeVidEntries, decodeComponent_encode, ih]

theorem decodeEidEntries_encode (l : List (Eid × EdgeKind)) :
    decodeEidEntries (l.map fun p => SValue.seq [.num p.1, encodeEdgeKind p.2]) = some l := by
  induction l with
  | nil => simp [decodeEidEntries]
  | cons p rest ih => simp [decodeEidEntries, decodeEdgeKind_encode, ih]

theorem decodeReqEntries_encode (l : List (String × Unit)) :
    decodeReqEntries (l.map fun p => SValue.str p.1) = some l := by
  induction l with
  | nil => simp [decodeReqEntries]
  | cons p rest ih => simp [decodeReqEntries, ih]

theorem decodeOutEntries_encode (l : List (String × Output)) :
    decodeOutEntries (l.map fun p =>
      SValue.seq [.str p.1, .str p.2.name, encodeTy p.2.value_type, .num p.2.vid]) = some l := by
  induction l with
  | nil => simp [decodeOutEntries]
  | cons p rest ih => simp [decodeOutEntries, decodeTy_encodeTy, ih]

theorem decodeIndexedQuery_encode (iq : IndexedQuery) :
    decodeIndexedQuery (encodeIndexedQuery iq) = some iq := by
  obtain ⟨⟨rc⟩, vids, eids, req, outs⟩ := iq
  simp [encodeIndexedQuery, decodeIndexedQuery, decodeComponent_encode,
    decodeVidEntries_encode, decodeEidEntries_encode, decodeReqEntries_encode,
    decodeOutEntries_encode]

theorem wQuery_ok : tryFrom wQuery = .ok wIndexed := rfl

theorem tryFrom_ok_addData (q : IRQuery) (iq : IndexedQuery) (h : tryFrom q = .ok iq) :
    addDataFromComponent emptyIndexes q.root_component 0 =
      .ok ⟨iq.vids, iq.eids, iq.required_arguments, iq.outputs⟩ ∧ iq.ir_query = q := by
  rw [tryFrom] at h
  split at h
  · cases h
  · rename_i st hst
    cases h
    exact ⟨hst, rfl⟩

theorem tryFrom_runSpec (q : IRQuery) (iq : IndexedQuery) (h : tryFrom q = .ok iq) :
    RunSpec emptyIndexes ⟨iq.vids, iq.eids, iq.required_arguments, iq.outputs⟩
      (allVids q.root_component) (allEids q.root_component)
      (allOutputNames q.root_component) (allVariables q.root_component)
      (reachFrom 0 q.root_component) :=
  addData_spec emptyIndexes q.root_component 0 _ emptyIndexes_sorted
    (tryFrom_ok_addData q iq h).1

/-- C1: construction is all-or-nothing: `tryFrom` either surfaces, verbatim,
the first error produced by the recursive validation walk — exposing no
`IndexedQuery` and none of the accumulated indices — or it returns the fully
built `IndexedQuery` assembled from the walk's four completed indices. -/
theorem c1_all_or_nothing (q : IRQuery) :
    tryFrom q = (match addDataFromComponent emptyIndexes q.root_component 0 with
      | .error e => .error e
      | .ok st => .ok ⟨q, st.vids, st.eids, st.required_arguments, st.outputs⟩) := by
  rw [tryFrom]

/-- C2: the interval-contiguity invariant claimed for every successfully built
IndexedQuery is not enforced by the code: `gapQuery` (edge ids 1 and 4, gap at
2 and 3) passes every check `add_data_from_component` performs, yet its edge
id set is not a contiguous interval. -/
theorem c2_contiguity_not_enforced :
    (tryFrom gapQuery).isOk = true ∧ ¬ ContiguousEids gapQuery.root_component := by
  constructor
  · rfl
  · intro hcont
    have h1 : (1 : Eid) ∈ allEids gapQuery.root_component := by
      simp [allEids, foldsEids, gapQuery, IRQueryComponent.edges, IRQueryComponent.folds]
    have h4 : (4 : Eid) ∈ allEids gapQuery.root_component := by
      simp [allEids, foldsEids, gapQuery, IRQueryComponent.edges, IRQueryComponent.folds]
    have hmem := hcont 1 h1 4 h4 2 (by decide) (by decide)
    simp [allEids, foldsEids, gapQuery, IRQueryComponent.edges, IRQueryComponent.folds] at hmem

/-- C3: the tag-ordering invariant claimed for every successfully built
IndexedQuery is not enforced by the code: in `tagQuery`, vertex 2 (expanded by
edge id 1) filters using a Tag referencing vertex 3, which is only expanded by
edge id 2, yet construction succeeds. -/
theorem c3_tag_ordering_not_enforced :
    (tryFrom tagQuery).isOk = true ∧ ¬ TagOrderingRespected tagQuery := by
  constructor
  · rfl
  · intro hord
    have hbad := hord (0, tagQuery.root_component)
      (by simp [reachFrom, reachFolds, tagQuery, IRQueryComponent.folds])
      (2, ⟨[⟨some (.Tag ⟨3⟩)⟩]⟩)
      (by simp [tagQuery, IRQueryComponent.vertices])
      ⟨some (.Tag ⟨3⟩)⟩ (by simp)
      ⟨3⟩ rfl
      (2, 3)
      (by simp [allToPairs, foldsToPairs, tagQuery, IRQueryComponent.edges,
        IRQueryComponent.folds])
      rfl
      (1, 2)
      (by simp [allToPairs, foldsToPairs, tagQuery, IRQueryComponent.edges,
        IRQueryComponent.folds])
      rfl
    simp at hbad

/-- C4: for every successful construction and every component reachable at fold
depth `n`, each output declared there appears in the outputs index under its
name, with value type the declared leaf field type wrapped in exactly `n`
non-nullable list layers (depth 0 leaves it unchanged, and the leaf itself is
never altered), and with the declared vertex id. -/
theorem c4_output_wrapping (q : IRQuery) (iq : IndexedQuery) (h : tryFrom q = .ok iq)
    (n : Nat) (C : IRQueryComponent) (hreach : (n, C) ∈ reachFrom 0 q.root_component)
    (name : String) (field : OutputField) (hout : (name, field) ∈ C.outputs) :
    alistGet name iq.outputs = some ⟨name, wrapList n field.field_type, field.vertex_id⟩ := by
  have RS := tryFrom_runSpec q iq h
  have CF := RS.reach_facts (n, C) hreach
  have hfact := (CF.output_facts (name, field) hout).1
  rw [wrapLoop_eq_wrapList] at hfact
  exact hfact

theorem c4_witness :
    tryFrom wQuery = Except.ok wIndexed ∧
    alistGet "tags" wIndexed.outputs =
      some ⟨"tags", wrapList 1 (Ty.named "String" true), 2⟩ :=
  ⟨wQuery_ok,
    c4_output_wrapping wQuery wIndexed wQuery_ok 1 wComp2
      (by simp [reachFrom, reachFolds, wQuery, wRoot, IRQueryComponent.folds,
        IRFold.component])
      "tags" ⟨2, Ty.named "String" true⟩
      (by simp [wComp2, IRQueryComponent.outputs])⟩

/-- C5: the required-arguments index contains exactly the variable names that
appear as the right-hand Variable argument of some filter on some vertex
anywhere in the query tree, nested fold components included; Tag arguments and
filters without a right-hand argument contribute nothing. -/
theorem c5_required_arguments (q : IRQuery) (iq : IndexedQuery) (h : tryFrom q = .ok iq)
    (name : String) :
    (alistGet name iq.required_arguments).isSome = true ↔
      name ∈ allVariables q.root_component := by
  have RS := tryFrom_runSpec q iq h
  have hdom := RS.req_dom name
  simpa [emptyIndexes, alistGet] using hdom

theorem c5_witness :
    tryFrom wQuery = Except.ok wIndexed ∧
    ((alistGet "x" wIndexed.required_arguments).isSome = true ↔
      "x" ∈ allVariables wQuery.root_component) :=
  ⟨wQuery_ok, c5_required_arguments wQuery wIndexed wQuery_ok "x"⟩

/-- C6 (amended): for every successful construction, every regular edge and
every fold with id `e` in every reachable component has `to` vertex id
`e + 1`; consequently any query containing a violating edge or fold never
constructs successfully. (The originally claimed error attribution does not
always hold, because an earlier check can fail first; see the
counterexample.) -/
theorem c6_id_vertex_correlation (q : IRQuery) (iq : IndexedQuery) (h : tryFrom q = .ok iq)
    (n : Nat) (C : IRQueryComponent) (hreach : (n, C) ∈ reachFrom 0 q.root_component) :
    (∀ p ∈ C.edges, p.1 + 1 = p.2.to_vid) ∧ (∀ p ∈ C.folds, p.1 + 1 = p.2.to_vid) := by
  have RS := tryFrom_runSpec q iq h
  have CF := RS.reach_facts (n, C) hreach
  exact ⟨fun p hp => (CF.edge_facts p hp).1, fun p hp => (CF.fold_facts p hp).1⟩

theorem c6_witness :
    tryFrom wQuery = Except.ok wIndexed ∧
    ((∀ p ∈ wRoot.edges, p.1 + 1 = p.2.to_vid) ∧
      (∀ p ∈ wRoot.folds, p.1 + 1 = p.2.to_vid)) :=
  ⟨wQuery_ok, c6_id_vertex_correlation wQuery wIndexed wQuery_ok 0 wRoot
    (by simp [reachFrom, wQuery])⟩

/-- C6 counterexample: `mismatchQuery` contains a regular edge with id 1 whose
to-vertex id is 3 (violating the id/vertex correlation), yet construction
fails with `MissingRoot`, not with `EdgeIdVertexIdMismatch`, because the
missing-root check runs first. -/
theorem c6_counterexample :
    (∃ p ∈ mismatchQuery.root_component.edges, p.1 + 1 ≠ p.2.to_vid) ∧
    tryFrom mismatchQuery = .error MissingRoot ∧
    MissingRoot ≠ EdgeIdVertexIdMismatch := by
  refine ⟨⟨(1, ⟨1, 3⟩), by simp [mismatchQuery, IRQueryComponent.edges], by decide⟩, ?_, ?_⟩
  · rfl
  · simp [MissingRoot, EdgeIdVertexIdMismatch]

/-- C7 (amended): for every successful construction, the vertex ids, the
edge/fold ids (one shared id space) and the output names across the whole
query tree are pairwise distinct, and the vertex index maps every vertex id to
the unique component declaring it; consequently any query with a duplicate
vertex id, edge/fold id or output name never constructs successfully. (The
originally claimed error attribution does not always hold, because an earlier
check can fail first; see the counterexample.) -/
theorem c7_global_uniqueness (q : IRQuery) (iq : IndexedQuery) (h : tryFrom q = .ok iq) :
    (allVids q.root_component).Nodup ∧ (allEids q.root_component).Nodup ∧
    (allOutputNames q.root_component).Nodup ∧
    (∀ n C, (n, C) ∈ reachFrom 0 q.root_component →
      ∀ p ∈ C.vertices, alistGet p.1 iq.vids = some C) := by
  have RS := tryFrom_runSpec q iq h
  exact ⟨RS.vids_nodup, RS.eids_nodup, RS.outputs_nodup,
    fun n C hr p hp => (RS.reach_facts (n, C) hr).vertex_owned p hp⟩

theorem c7_witness :
    tryFrom wQuery = Except.ok wIndexed ∧ (allVids wQuery.root_component).Nodup :=
  ⟨wQuery_ok, (c7_global_uniqueness wQuery wIndexed wQuery_ok).1⟩

/-- C7 counterexample: `dupVidQuery` declares vertex id 1 in two different
components, yet construction fails with `MissingRoot` (for the nested
component), not with `DuplicateVertexId`, because the nested component's
missing-root check runs before its vertices are registered. -/
theorem c7_counterexample :
    ¬ (allVids dupVidQuery.root_component).Nodup ∧
    tryFrom dupVidQuery = .error MissingRoot ∧
    MissingRoot ≠ DuplicateVertexId := by
  refine ⟨?_, ?_, by simp [MissingRoot, DuplicateVertexId]⟩
  · simp [allVids, foldsVids, dupVidQuery, IRQueryComponent.vertices,
      IRQueryComponent.folds, IRFold.component]
  · rfl

/-- C8: processing a declared output resolves its vertex id through the global
vertex index: an absent id fails with `DanglingOutputVertex`, an id owned by a
component with a different identity fails with `OutputVertexWrongComponent`,
and on every successful construction each output's vertex id resolves, in the
final vertex index, to a component with the identity of the component that
declared the output. -/
theorem c8_output_vertex_checks :
    (∀ (st : Indexes) (c : IRQueryComponent) (d : Nat) (name : String)
      (field : OutputField) (rest : List (String × OutputField)),
      alistGet field.vertex_id st.vids = none →
      processOutputs st c d ((name, field) :: rest) = .error DanglingOutputVertex) ∧
    (∀ (st : Indexes) (c : IRQueryComponent) (d : Nat) (name : String)
      (field : OutputField) (rest : List (String × OutputField)) (oc : IRQueryComponent),
      alistGet field.vertex_id st.vids = some oc → ¬(c.cid = oc.cid) →
      processOutputs st c d ((name, field) :: rest) = .error OutputVertexWrongComponent) ∧
    (∀ (q : IRQuery) (iq : IndexedQuery), tryFrom q = .ok iq →
      ∀ n C, (n, C) ∈ reachFrom 0 q.root_component →
      ∀ p ∈ C.outputs, ∃ oc, alistGet p.2.vertex_id iq.vids = some oc ∧ C.cid = oc.cid) := by
  refine ⟨?_, ?_, ?_⟩
  · intro st c d name field rest hnone
    simp [processOutputs, hnone, DanglingOutputVertex]
  · intro st c d name field rest oc hsome hne
    simp [processOutputs, hsome, hne, OutputVertexWrongComponent]
  · intro q iq h n C hr p hp
    have RS := tryFrom_runSpec q iq h
    exact ((RS.reach_facts (n, C) hr).output_facts p hp).2

theorem c8_witness :
    processOutputs emptyIndexes wRoot 0 [("name", ⟨9, Ty.named "String" true⟩)] =
      .error DanglingOutputVertex :=
  c8_output_vertex_checks.1 emptyIndexes wRoot 0 "name" ⟨9, Ty.named "String" true⟩ []
    (by simp [emptyIndexes, alistGet])

/-- C9: serializing then deserializing any successfully constructed
IndexedQuery yields the same value back, and all four index mappings are
stored — hence serialized — in strictly ascending key order, so the
serialization of equal IndexedQuery values is identical. -/
theorem c9_round_trip (q : IRQuery) (iq : IndexedQuery) (h : tryFrom q = .ok iq) :
    decodeIndexedQuery (encodeIndexedQuery iq) = some iq ∧
    KeysSorted iq.vids ∧ KeysSorted iq.eids ∧ KeysSorted iq.required_arguments ∧
    KeysSorted iq.outputs := by
  have RS := tryFrom_runSpec q iq h
  obtain ⟨s1, s2, s3, s4⟩ := RS.sorted
  exact ⟨decodeIndexedQuery_encode iq, s1, s2, s3, s4⟩

theorem c9_witness :
    tryFrom wQuery = Except.ok wIndexed ∧
    decodeIndexedQuery (encodeIndexedQuery wIndexed) = some wIndexed :=
  ⟨wQuery_ok, (c9_round_trip wQuery wIndexed wQuery_ok).1⟩

/-- C10: construction is total and never gets stuck: for every input query
(well-formed or not), `tryFrom` returns either a success value or an error
value; in this embedding every vertex-index lookup in the algorithm is an
explicit `Option` match, mirroring the source's guarded `ok_or` lookups. -/
theorem c10_totality (q : IRQuery) :
    (∃ iq, tryFrom q = .ok iq) ∨ (∃ e, tryFrom q = .error e) := by
  cases h : tryFrom q with
  | ok iq => exact Or.inl ⟨iq, rfl⟩
  | error e => exact Or.inr ⟨e, rfl⟩
